import Mathlib

/-!
Verification of the summary-polling subsystem of the meeting-minutes
frontend (startSummaryPolling / stopSummaryPolling in
src/frontend/src/components/Sidebar/SidebarProvider.tsx).

The subsystem is embedded as a small-step state machine over an explicit
event-loop state.  The JavaScript runtime facts that matter are modelled
faithfully:

* activeSummaryPolls is a Map from meeting id to the interval id returned
  by setInterval; React functional updates are modelled as updates of a
  single current map (all mutation happens on one cooperative loop).
* setInterval returns a fresh positive integer id and registers a
  repeating timer; the closure state of the interval callback (the
  shared mutable pollCount, the key, the onUpdate callback) is recorded
  per interval id.  clearInterval only prevents FUTURE firings of the
  timer: it does not cancel a tick whose asynchronous fetch
  (await invoke) is already in flight, and it does not destroy the
  closure.  Such an in-flight continuation, when its fetch resolves,
  still runs the post-await code, including the unconditional
  onUpdate(result) call.
* Callbacks are identified by a numeric id; every onUpdate invocation is
  appended to a trace, so "cb receives a call" is observable.
-/

namespace Polling

/-- The status record returned by the api_get_summary fetch and passed to
onUpdate.  The source treats it as opaque data apart from its status
string, and synthesizes records with a status and an error message. -/
structure SummaryResult where
  status : String
  error : Option String := none
deriving DecidableEq, Repr

/-- One invocation of an onUpdate callback: which callback, with which
record. -/
structure CallbackCall where
  cb : Nat
  result : SummaryResult
deriving DecidableEq, Repr

/-- The closure state of one setInterval registration made by
startSummaryPolling: the captured meetingId, the onUpdate callback, the
shared mutable pollCount (starts at 0, incremented at the top of each
tick), and whether clearInterval has been called on this id (a cleared
timer never fires again, but its closure survives for in-flight
continuations). -/
structure IvState where
  key : String
  cb : Nat
  pollCount : Nat
  cleared : Bool
deriving DecidableEq, Repr

/-- MAX_POLLS = 120 in the source: 10 minutes at 5-second intervals. -/
def MAX_POLLS : Nat := 120

/-- The record synthesized by the timeout branch of the tick. -/
def timeoutResult : SummaryResult :=
  { status := "error"
    error := some "Summary generation timed out after 10 minutes. Please try again or check your model configuration." }

/-- The whole event-loop state: the activeSummaryPolls map (key to
interval id), the registered interval closures by id, the multiset of
interval ids with a fetch currently in flight (awaiting invoke), the
trace of onUpdate invocations so far, and the next fresh interval id
(setInterval ids are positive, so the truthiness test
if (pollInterval) in stopSummaryPolling is equivalent to presence in
the map). -/
structure PollSt where
  polls : String → Option Nat
  intervals : Nat → Option IvState
  inflight : List Nat
  trace : List CallbackCall
  nextId : Nat

/-- clearInterval(i): the timer with id i never fires again.  The
closure survives. -/
def clearIv (s : PollSt) (i : Nat) : PollSt :=
  { s with intervals := fun n =>
      if n = i then (s.intervals i).map (fun st => { st with cleared := true })
      else s.intervals n }

/-- startSummaryPolling(meetingId, processId, onUpdate).  The source
performs no validation of the key.  If the map already holds an interval
for the key it calls clearInterval on it (without deleting the map
entry), then creates a fresh interval with pollCount = 0 and overwrites
the map entry with the new id.  processId is only logged. -/
def startPoll (s : PollSt) (k _j : String) (cb : Nat) : PollSt :=
  let s1 := match s.polls k with
    | some oldId => clearIv s oldId
    | none => s
  let id := s1.nextId
  { s1 with
      intervals := fun n => if n = id then some ⟨k, cb, 0, false⟩ else s1.intervals n
      polls := fun k2 => if k2 = k then some id else s1.polls k2
      nextId := id + 1 }

/-- One firing of the interval timer with id i (only an uncleared,
registered timer fires; a fired tick increments the shared pollCount,
then either takes the timeout branch — clearInterval, delete the map
entry for the key, onUpdate(timeoutResult), no fetch — or issues the
asynchronous fetch and suspends, leaving the fetch in flight). -/
def tickPoll (s : PollSt) (i : Nat) : PollSt :=
  match s.intervals i with
  | none => s
  | some st =>
    if st.cleared then s
    else
      if st.pollCount + 1 ≥ MAX_POLLS then
        { s with
            intervals := fun n =>
              if n = i then some ⟨st.key, st.cb, st.pollCount + 1, true⟩
              else s.intervals n
            polls := fun k2 => if k2 = st.key then none else s.polls k2
            trace := s.trace ++ [⟨st.cb, timeoutResult⟩] }
      else
        { s with
            intervals := fun n =>
              if n = i then some ⟨st.key, st.cb, st.pollCount + 1, false⟩
              else s.intervals n
            inflight := s.inflight ++ [i] }

/-- Resumption of an in-flight tick of interval i whose fetch resolved
with record r.  The continuation runs the post-await code of the source
unconditionally — there is no check that the timer is still live:
onUpdate(result) is always called; then if the status is completed,
error or failed, or is idle with the (current) pollCount > 1, the
continuation calls clearInterval and deletes the map entry for the key. -/
def resolveOkPoll (s : PollSt) (i : Nat) (r : SummaryResult) : PollSt :=
  if i ∈ s.inflight then
    match s.intervals i with
    | none => s
    | some st =>
      let s1 := { s with
        inflight := s.inflight.erase i
        trace := s.trace ++ [⟨st.cb, r⟩] }
      if r.status = "completed" ∨ r.status = "error" ∨ r.status = "failed" then
        { s1 with
            intervals := fun n =>
              if n = i then some ⟨st.key, st.cb, st.pollCount, true⟩
              else s.intervals n
            polls := fun k2 => if k2 = st.key then none else s.polls k2 }
      else if r.status = "idle" ∧ st.pollCount > 1 then
        { s1 with
            intervals := fun n =>
              if n = i then some ⟨st.key, st.cb, st.pollCount, true⟩
              else s.intervals n
            polls := fun k2 => if k2 = st.key then none else s.polls k2 }
      else s1
  else s

/-- Resumption of an in-flight tick of interval i whose fetch failed
with message msg (error.message in the source, or the string
"Unknown error" for a non-Error throw; msg stands for whichever string
the catch block computes).  The catch block calls onUpdate with
status = error and the message, then clearInterval and deletes the map
entry.  Failures are never retried. -/
def resolveErrPoll (s : PollSt) (i : Nat) (msg : String) : PollSt :=
  if i ∈ s.inflight then
    match s.intervals i with
    | none => s
    | some st =>
      { s with
          inflight := s.inflight.erase i
          trace := s.trace ++ [⟨st.cb, { status := "error", error := some msg }⟩]
          intervals := fun n =>
            if n = i then some ⟨st.key, st.cb, st.pollCount, true⟩
            else s.intervals n
          polls := fun k2 => if k2 = st.key then none else s.polls k2 }
  else s

/-- stopSummaryPolling(meetingId): if the map holds an interval id for
the key (setInterval ids are positive, so the source truthiness test is
presence), clearInterval it and delete the map entry; otherwise nothing
happens (the function is total and never throws). -/
def stopPoll (s : PollSt) (k : String) : PollSt :=
  match s.polls k with
  | some i =>
      { s with
          intervals := (clearIv s i).intervals
          polls := fun k2 => if k2 = k then none else s.polls k2 }
  | none => s

/-- The events the cooperative event loop can process: an API call to
start or stop polling for a key, a timer firing for interval id i, or
the resolution (success or failure) of an in-flight fetch. -/
inductive Ev
| start (k j : String) (cb : Nat)
| tick (i : Nat)
| resolveOk (i : Nat) (r : SummaryResult)
| resolveErr (i : Nat) (msg : String)
| stop (k : String)
deriving DecidableEq, Repr

/-- One step of the event loop. -/
def step (s : PollSt) : Ev → PollSt
| .start k j cb => startPoll s k j cb
| .tick i => tickPoll s i
| .resolveOk i r => resolveOkPoll s i r
| .resolveErr i msg => resolveErrPoll s i msg
| .stop k => stopPoll s k

/-- The initial state: empty map, no intervals, no in-flight fetches,
empty trace; interval ids are allocated from 1 (browser setInterval ids
are positive). -/
def stInit : PollSt :=
  { polls := fun _ => none
    intervals := fun _ => none
    inflight := []
    trace := []
    nextId := 1 }

/-- Run a list of events from a state. -/
def run (s : PollSt) (evs : List Ev) : PollSt := evs.foldl step s

/-- A fetch result with status "processing" (non-terminal). -/
def procResult : SummaryResult := { status := "processing" }

/-- A fetch result with status "completed" (terminal). -/
def complResult : SummaryResult := { status := "completed" }

/-- A fetch result with status "idle". -/
def idleResult : SummaryResult := { status := "idle" }

/-- A fetch result whose status lies outside the documented StatusKind
enumeration. -/
def bogusResult : SummaryResult := { status := "mystery" }

/-- Scenario A of the spec: processing at tick 1, processing at tick 2,
completed at tick 3 (each fetch resolves before the next timer firing). -/
def evsScenarioA : List Ev :=
  [ .start "m1" "p1" 0, .tick 1, .resolveOk 1 procResult, .tick 1,
    .resolveOk 1 procResult, .tick 1, .resolveOk 1 complResult ]

/-- The state after starting a poll for key m1 (interval id 1, callback
id 0) and one timer firing: pollCount = 1 and one fetch in flight. -/
def sAfterTick1 : PollSt := run stInit [ .start "m1" "p1" 0, .tick 1 ]

/-- A state where the fetch of tick 1 returned idle (non-terminal) and
the timer has fired a second time: pollCount = 2 and one fetch in
flight. -/
def sIdleTick2 : PollSt :=
  run stInit [ .start "m1" "p1" 0, .tick 1, .resolveOk 1 idleResult, .tick 1 ]

/-- Two independent keys m1 (interval 1, callback 0) and m2 (interval 2,
callback 1); m2 has ticked once and has a fetch in flight. -/
def sTwoKeys : PollSt :=
  run stInit [ .start "m1" "p1" 0, .start "m2" "p2" 1, .tick 2 ]

/-- A full timeout run: start, then MAX_POLLS timer firings with no
fetch ever resolving terminally (the fetches stay in flight). -/
def evsTimeout : List Ev := Ev.start "m1" "p1" 0 :: List.replicate MAX_POLLS (Ev.tick 1)

/-- The state one timer firing before the timeout: pollCount = 119. -/
def sNearTimeout : PollSt :=
  run stInit (Ev.start "m1" "p1" 0 :: List.replicate 119 (Ev.tick 1))

/-- The state invariant maintained by every event-loop step: interval
ids at or above nextId are unallocated, every allocated interval has
pollCount at most MAX_POLLS, and an interval whose pollCount has
reached MAX_POLLS has been cleared (the timeout tick cleared it). -/
def PollInv (s : PollSt) : Prop :=
  (∀ i, s.nextId ≤ i → s.intervals i = none) ∧
  (∀ i st, s.intervals i = some st →
     st.pollCount ≤ MAX_POLLS ∧ (MAX_POLLS ≤ st.pollCount → st.cleared = true))

end Polling

namespace Polling

/-- A cleared interval timer never fires again: tickPoll is the
identity on it.  This is the absorbing property of clearInterval. -/
theorem tickPoll_cleared (s : PollSt) (i : Nat) (st : IvState)
    (hst : s.intervals i = some st) (hc : st.cleared = true) :
    tickPoll s i = s := by
  unfold tickPoll
  rw [hst]
  simp [hc]

/-- An unregistered interval id never fires. -/
theorem tickPoll_none (s : PollSt) (i : Nat)
    (hst : s.intervals i = none) :
    tickPoll s i = s := by
  unfold tickPoll
  rw [hst]

/-- C5: a successful fetch whose status is completed, error or failed is
terminal: onUpdate is invoked with the fetched record (the trace is
extended by exactly that call), the map entry for the key is removed,
the timer is cleared and never fires again, and the fetch leaves the
in-flight set.  Moreover, in Scenario A (processing, processing,
completed) the callback is called exactly three times and the registry
no longer contains the key after the third call. -/
theorem resolve_terminal_status (s : PollSt) (i : Nat) (st : IvState)
    (r : SummaryResult) (hmem : i ∈ s.inflight) (hst : s.intervals i = some st)
    (hr : r.status = "completed" ∨ r.status = "error" ∨ r.status = "failed") :
    (resolveOkPoll s i r).trace = s.trace ++ [⟨st.cb, r⟩] ∧
    (resolveOkPoll s i r).polls st.key = none ∧
    (resolveOkPoll s i r).intervals i = some ⟨st.key, st.cb, st.pollCount, true⟩ ∧
    (resolveOkPoll s i r).inflight = s.inflight.erase i ∧
    tickPoll (resolveOkPoll s i r) i = resolveOkPoll s i r ∧
    (run stInit evsScenarioA).trace =
      [⟨0, procResult⟩, ⟨0, procResult⟩, ⟨0, complResult⟩] ∧
    (run stInit evsScenarioA).polls "m1" = none := by
  have hE : resolveOkPoll s i r =
      { s with
          inflight := s.inflight.erase i
          trace := s.trace ++ [⟨st.cb, r⟩]
          intervals := fun n =>
            if n = i then some ⟨st.key, st.cb, st.pollCount, true⟩
            else s.intervals n
          polls := fun k2 => if k2 = st.key then none else s.polls k2 } := by
    simp only [resolveOkPoll, if_pos hmem, hst, if_pos hr]
  refine ⟨by rw [hE], by rw [hE]; simp, by rw [hE]; simp, by rw [hE], ?_, by decide, by decide⟩
  refine tickPoll_cleared _ i ⟨st.key, st.cb, st.pollCount, true⟩ ?_ rfl
  rw [hE]
  simp

/-- C5 witness: the terminal-status theorem applied at the concrete
state reached after one tick for key m1, with a completed result. -/
theorem resolve_terminal_status_witness :
    (resolveOkPoll sAfterTick1 1 complResult).trace =
      sAfterTick1.trace ++ [⟨0, complResult⟩] ∧
    (resolveOkPoll sAfterTick1 1 complResult).polls "m1" = none ∧
    (resolveOkPoll sAfterTick1 1 complResult).intervals 1 = some ⟨"m1", 0, 1, true⟩ ∧
    (resolveOkPoll sAfterTick1 1 complResult).inflight = sAfterTick1.inflight.erase 1 ∧
    tickPoll (resolveOkPoll sAfterTick1 1 complResult) 1 =
      resolveOkPoll sAfterTick1 1 complResult ∧
    (run stInit evsScenarioA).trace =
      [⟨0, procResult⟩, ⟨0, procResult⟩, ⟨0, complResult⟩] ∧
    (run stInit evsScenarioA).polls "m1" = none :=
  resolve_terminal_status sAfterTick1 1 ⟨"m1", 0, 1, false⟩ complResult
    (by decide) (by decide) (by decide)

/-- C4: a successful fetch returning status idle is non-terminal when
the observed pollCount is 1 (first tick): only the trace grows by the
onUpdate call and the fetch leaves the in-flight set, while the map and
the interval (hence the still-scheduled timer) are untouched.  When the
observed pollCount is greater than 1 it is terminal: onUpdate is
invoked, the timer is cleared (and never fires again) and the map entry
is removed. -/
theorem resolve_idle_first_vs_later (s : PollSt) (i : Nat) (st : IvState)
    (r : SummaryResult) (hmem : i ∈ s.inflight) (hst : s.intervals i = some st)
    (hr : r.status = "idle") :
    (st.pollCount = 1 →
      resolveOkPoll s i r =
        { s with
            inflight := s.inflight.erase i
            trace := s.trace ++ [⟨st.cb, r⟩] }) ∧
    (st.pollCount > 1 →
      (resolveOkPoll s i r).trace = s.trace ++ [⟨st.cb, r⟩] ∧
      (resolveOkPoll s i r).polls st.key = none ∧
      (resolveOkPoll s i r).intervals i = some ⟨st.key, st.cb, st.pollCount, true⟩ ∧
      (resolveOkPoll s i r).inflight = s.inflight.erase i ∧
      tickPoll (resolveOkPoll s i r) i = resolveOkPoll s i r) := by
  have hnotterm : ¬(r.status = "completed" ∨ r.status = "error" ∨ r.status = "failed") := by
    simp [hr]
  constructor
  · intro h1
    have hnotidle : ¬(r.status = "idle" ∧ st.pollCount > 1) := by
      simp [hr, h1]
    simp only [resolveOkPoll, if_pos hmem, hst, if_neg hnotterm, if_neg hnotidle]
  · intro hgt
    have hE : resolveOkPoll s i r =
        { s with
            inflight := s.inflight.erase i
            trace := s.trace ++ [⟨st.cb, r⟩]
            intervals := fun n =>
              if n = i then some ⟨st.key, st.cb, st.pollCount, true⟩
              else s.intervals n
            polls := fun k2 => if k2 = st.key then none else s.polls k2 } := by
      have hi : r.status = "idle" ∧ st.pollCount > 1 := ⟨hr, hgt⟩
      simp only [resolveOkPoll, if_pos hmem, hst, if_neg hnotterm, if_pos hi]
    refine ⟨by rw [hE], by rw [hE]; simp, by rw [hE]; simp, by rw [hE], ?_⟩
    refine tickPoll_cleared _ i ⟨st.key, st.cb, st.pollCount, true⟩ ?_ rfl
    rw [hE]
    simp

/-- C4 witness: the idle theorem applied at the state of the first tick
(pollCount 1: handle stays, registry unchanged) and at the state of the
second tick after an idle first tick (pollCount 2: handle removed). -/
theorem resolve_idle_first_vs_later_witness :
    (resolveOkPoll sAfterTick1 1 idleResult =
      { sAfterTick1 with
          inflight := sAfterTick1.inflight.erase 1
          trace := sAfterTick1.trace ++ [⟨0, idleResult⟩] }) ∧
    ((resolveOkPoll sIdleTick2 1 idleResult).trace =
        sIdleTick2.trace ++ [⟨0, idleResult⟩] ∧
      (resolveOkPoll sIdleTick2 1 idleResult).polls "m1" = none ∧
      (resolveOkPoll sIdleTick2 1 idleResult).intervals 1 = some ⟨"m1", 0, 2, true⟩ ∧
      (resolveOkPoll sIdleTick2 1 idleResult).inflight = sIdleTick2.inflight.erase 1 ∧
      tickPoll (resolveOkPoll sIdleTick2 1 idleResult) 1 =
        resolveOkPoll sIdleTick2 1 idleResult) :=
  ⟨(resolve_idle_first_vs_later sAfterTick1 1 ⟨"m1", 0, 1, false⟩ idleResult
      (by decide) (by decide) rfl).1 rfl,
   (resolve_idle_first_vs_later sIdleTick2 1 ⟨"m1", 0, 2, false⟩ idleResult
      (by decide) (by decide) rfl).2 (by decide)⟩

/-- C6: a fetch failure with message msg is terminal: onUpdate is
invoked once with the record status error and the failure message, the
timer is cleared, the map entry removed, and — since the cleared timer
never fires again — no further tick is ever scheduled for this handle
(the failure is never retried). -/
theorem resolve_failure_terminal (s : PollSt) (i : Nat) (st : IvState)
    (msg : String) (hmem : i ∈ s.inflight) (hst : s.intervals i = some st) :
    (resolveErrPoll s i msg).trace =
      s.trace ++ [⟨st.cb, { status := "error", error := some msg }⟩] ∧
    (resolveErrPoll s i msg).polls st.key = none ∧
    (resolveErrPoll s i msg).intervals i = some ⟨st.key, st.cb, st.pollCount, true⟩ ∧
    (resolveErrPoll s i msg).inflight = s.inflight.erase i ∧
    tickPoll (resolveErrPoll s i msg) i = resolveErrPoll s i msg := by
  have hE : resolveErrPoll s i msg =
      { s with
          inflight := s.inflight.erase i
          trace := s.trace ++ [⟨st.cb, { status := "error", error := some msg }⟩]
          intervals := fun n =>
            if n = i then some ⟨st.key, st.cb, st.pollCount, true⟩
            else s.intervals n
          polls := fun k2 => if k2 = st.key then none else s.polls k2 } := by
    simp only [resolveErrPoll, if_pos hmem, hst]
  refine ⟨by rw [hE], by rw [hE]; simp, by rw [hE]; simp, by rw [hE], ?_⟩
  refine tickPoll_cleared _ i ⟨st.key, st.cb, st.pollCount, true⟩ ?_ rfl
  rw [hE]
  simp

/-- C6 witness: a fetch failure at the first tick of key m1. -/
theorem resolve_failure_terminal_witness :
    (resolveErrPoll sAfterTick1 1 "boom").trace =
      sAfterTick1.trace ++ [⟨0, { status := "error", error := some "boom" }⟩] ∧
    (resolveErrPoll sAfterTick1 1 "boom").polls "m1" = none ∧
    (resolveErrPoll sAfterTick1 1 "boom").intervals 1 = some ⟨"m1", 0, 1, true⟩ ∧
    (resolveErrPoll sAfterTick1 1 "boom").inflight = sAfterTick1.inflight.erase 1 ∧
    tickPoll (resolveErrPoll sAfterTick1 1 "boom") 1 = resolveErrPoll sAfterTick1 1 "boom" :=
  resolve_failure_terminal sAfterTick1 1 ⟨"m1", 0, 1, false⟩ "boom" (by decide) (by decide)

/-- C10: a successful fetch whose status is none of completed, error,
failed or idle — in particular any status outside the documented
StatusKind enumeration — is non-terminal: onUpdate is still invoked
with the fetched record and the fetch leaves the in-flight set, but the
map and the intervals (hence the still-scheduled timer) are exactly as
before, so polling continues on the next tick. -/
theorem resolve_unknown_status_nonterminal (s : PollSt) (i : Nat) (st : IvState)
    (r : SummaryResult) (hmem : i ∈ s.inflight) (hst : s.intervals i = some st)
    (h1 : r.status ≠ "completed") (h2 : r.status ≠ "error")
    (h3 : r.status ≠ "failed") (h4 : r.status ≠ "idle") :
    resolveOkPoll s i r =
      { s with
          inflight := s.inflight.erase i
          trace := s.trace ++ [⟨st.cb, r⟩] } := by
  have hnotterm : ¬(r.status = "completed" ∨ r.status = "error" ∨ r.status = "failed") := by
    simp [h1, h2, h3]
  have hnotidle : ¬(r.status = "idle" ∧ st.pollCount > 1) := by
    simp [h4]
  simp only [resolveOkPoll, if_pos hmem, hst, if_neg hnotterm, if_neg hnotidle]

/-- C10 witness: a fetch result with the undocumented status "mystery"
at the first tick of key m1 leaves the handle polling. -/
theorem resolve_unknown_status_nonterminal_witness :
    resolveOkPoll sAfterTick1 1 bogusResult =
      { sAfterTick1 with
          inflight := sAfterTick1.inflight.erase 1
          trace := sAfterTick1.trace ++ [⟨0, bogusResult⟩] } :=
  resolve_unknown_status_nonterminal sAfterTick1 1 ⟨"m1", 0, 1, false⟩ bogusResult
    (by decide) (by decide) (by decide) (by decide) (by decide) (by decide)

set_option maxRecDepth 40000 in
/-- C3 counterexample: a full timeout run delivers exactly one callback
carrying timeoutResult, and timeoutResult is not the record with error
message "timed out after 10 minutes" that the claim states — the source
message is "Summary generation timed out after 10 minutes. Please try
again or check your model configuration.". -/
theorem tick_timeout_message_cex :
    (run stInit evsTimeout).trace = [⟨0, timeoutResult⟩] ∧
    timeoutResult ≠ { status := "error", error := some "timed out after 10 minutes" } := by
  decide

/-- C3 (amended to the error message actually synthesized): on the tick
where the incremented pollCount reaches MAX_POLLS, the worker does not
issue a fetch (the in-flight set is unchanged), invokes onUpdate
exactly once with timeoutResult, clears the timer, removes the map
entry for the key, and — the cleared timer being absorbing — no further
tick ever fires for this interval. -/
theorem tick_timeout (s : PollSt) (i : Nat) (st : IvState)
    (hst : s.intervals i = some st) (hc : st.cleared = false)
    (hcount : MAX_POLLS ≤ st.pollCount + 1) :
    (tickPoll s i).trace = s.trace ++ [⟨st.cb, timeoutResult⟩] ∧
    (tickPoll s i).inflight = s.inflight ∧
    (tickPoll s i).polls st.key = none ∧
    (tickPoll s i).intervals i = some ⟨st.key, st.cb, st.pollCount + 1, true⟩ ∧
    tickPoll (tickPoll s i) i = tickPoll s i := by
  have hE : tickPoll s i =
      { s with
          intervals := fun n =>
            if n = i then some ⟨st.key, st.cb, st.pollCount + 1, true⟩
            else s.intervals n
          polls := fun k2 => if k2 = st.key then none else s.polls k2
          trace := s.trace ++ [⟨st.cb, timeoutResult⟩] } := by
    simp only [tickPoll, hst, hc, if_pos hcount]
    simp
  refine ⟨by rw [hE], by rw [hE], by rw [hE]; simp, by rw [hE]; simp, ?_⟩
  refine tickPoll_cleared _ i ⟨st.key, st.cb, st.pollCount + 1, true⟩ ?_ rfl
  rw [hE]
  simp

set_option maxRecDepth 40000 in
/-- C3 witness: the timeout theorem applied at the concrete state with
pollCount 119, one firing before the timeout. -/
theorem tick_timeout_witness :
    (tickPoll sNearTimeout 1).trace = sNearTimeout.trace ++ [⟨0, timeoutResult⟩] ∧
    (tickPoll sNearTimeout 1).inflight = sNearTimeout.inflight ∧
    (tickPoll sNearTimeout 1).polls "m1" = none ∧
    (tickPoll sNearTimeout 1).intervals 1 = some ⟨"m1", 0, 120, true⟩ ∧
    tickPoll (tickPoll sNearTimeout 1) 1 = tickPoll sNearTimeout 1 :=
  tick_timeout sNearTimeout 1 ⟨"m1", 0, 119, false⟩ (by decide) rfl (by decide)

/-- C7 counterexample: startSummaryPolling performs no key validation —
starting with the empty key creates a handle (the map holds the empty
key, an interval with pollCount 0 is registered and scheduled), the
timer fires, and the callback is invoked with the fetched record. -/
theorem start_empty_key_cex :
    (run stInit [Ev.start "" "p1" 0]).polls "" = some 1 ∧
    (run stInit [Ev.start "" "p1" 0]).intervals 1 = some ⟨"", 0, 0, false⟩ ∧
    (run stInit [Ev.start "" "p1" 0, Ev.tick 1, Ev.resolveOk 1 procResult]).trace =
      [⟨0, procResult⟩] := by
  decide

/-- C7 (amended: no rejection happens): start with the empty key
behaves exactly like start with any other key — a fresh handle with
pollCount 0 is installed under the empty key and its timer is
scheduled. -/
theorem start_empty_key_no_validation (s : PollSt) (j : String) (cb : Nat) :
    (startPoll s "" j cb).polls "" = some s.nextId ∧
    (startPoll s "" j cb).intervals s.nextId = some ⟨"", cb, 0, false⟩ := by
  unfold startPoll
  cases h : s.polls "" <;> simp [clearIv]

/-- C9: stop only touches its own key.  If two distinct keys hold two
distinct interval ids, stopping the first removes exactly its map entry
and leaves the second key's map entry, its interval closure (timer,
tick count, callback), the in-flight fetches and the trace unchanged;
and stop on a key with no live handle is a complete no-op on the state
(the function is total, so it never throws). -/
theorem stop_frame (s : PollSt) (k1 k2 : String) (i1 i2 : Nat)
    (h1 : s.polls k1 = some i1) (h2 : s.polls k2 = some i2)
    (hk : k2 ≠ k1) (hi : i2 ≠ i1) :
    (stopPoll s k1).polls k1 = none ∧
    (stopPoll s k1).polls k2 = some i2 ∧
    (stopPoll s k1).intervals i2 = s.intervals i2 ∧
    (stopPoll s k1).inflight = s.inflight ∧
    (stopPoll s k1).trace = s.trace ∧
    (∀ s' : PollSt, ∀ k' : String, s'.polls k' = none → stopPoll s' k' = s') := by
  constructor
  · simp only [stopPoll, h1]
    simp
  constructor
  · simp only [stopPoll, h1]
    simp [hk, h2]
  constructor
  · simp only [stopPoll, h1, clearIv]
    simp [hi]
  constructor
  · simp only [stopPoll, h1]
  constructor
  · simp only [stopPoll, h1]
  · intro s' k' h
    simp only [stopPoll, h]

/-- C9 witness: the frame theorem applied to the concrete two-key state
(m1 with interval 1, m2 with interval 2 mid-poll), stopping m1; the
no-op part instantiated by the theorem itself. -/
theorem stop_frame_witness :
    (stopPoll sTwoKeys "m1").polls "m1" = none ∧
    (stopPoll sTwoKeys "m1").polls "m2" = some 2 ∧
    (stopPoll sTwoKeys "m1").intervals 2 = sTwoKeys.intervals 2 ∧
    (stopPoll sTwoKeys "m1").inflight = sTwoKeys.inflight ∧
    (stopPoll sTwoKeys "m1").trace = sTwoKeys.trace ∧
    (∀ s' : PollSt, ∀ k' : String, s'.polls k' = none → stopPoll s' k' = s') :=
  stop_frame sTwoKeys "m1" "m2" 1 2 (by decide) (by decide) (by decide) (by decide)

/-- C1: clearInterval does not cancel an in-flight await continuation.
Concretely: start polling m1 (interval 1, callback 0), let the timer
fire once (the fetch is now in flight), then stop m1 — at this point
stopSummaryPolling has returned, the trace is empty and the map no
longer holds m1.  When the in-flight fetch then resolves with a
processing record, the post-await code still runs and invokes the
cancelled handle's onUpdate with that record: the callback IS invoked
after stop has returned, contradicting the cancellation contract. -/
theorem stop_inflight_callback_fires :
    (run stInit [Ev.start "m1" "p1" 0, Ev.tick 1, Ev.stop "m1"]).trace = [] ∧
    (run stInit [Ev.start "m1" "p1" 0, Ev.tick 1, Ev.stop "m1"]).polls "m1" = none ∧
    (run stInit [Ev.start "m1" "p1" 0, Ev.tick 1, Ev.stop "m1"]).inflight = [1] ∧
    (run stInit [Ev.start "m1" "p1" 0, Ev.tick 1, Ev.stop "m1",
        Ev.resolveOk 1 procResult]).trace = [⟨0, procResult⟩] := by
  decide

/-- C2 counterexample: start polling m1 with callback 0, let the timer
fire (fetch in flight), then start again for m1 with callback 1 — the
replacement is complete (the map now holds interval 2).  When the old
in-flight fetch resolves, the original callback 0 still receives a
call, contradicting the claim that after replacement the original
callback receives no further calls. -/
theorem start_replace_inflight_cex :
    (run stInit [Ev.start "m1" "p1" 0, Ev.tick 1, Ev.start "m1" "p2" 1]).trace = [] ∧
    (run stInit [Ev.start "m1" "p1" 0, Ev.tick 1, Ev.start "m1" "p2" 1]).polls "m1" =
      some 2 ∧
    (run stInit [Ev.start "m1" "p1" 0, Ev.tick 1, Ev.start "m1" "p2" 1,
        Ev.resolveOk 1 procResult]).trace = [⟨0, procResult⟩] := by
  decide

/-- C2 (amended: fetches already in flight at replacement still deliver
one call to the old callback; everything else holds): the map is a
function, so it holds at most one interval id per key at any instant;
start for an already-live key clears the prior handle's timer — which
therefore never fires again — and installs a fresh handle with the new
callback and pollCount 0 under the key, so all subsequent timer ticks
for the key belong to the new handle. -/
theorem start_replaces_handle (s : PollSt) (k j2 : String) (cb2 : Nat)
    (oldId : Nat) (hold : s.polls k = some oldId) (hlt : oldId < s.nextId) :
    (startPoll s k j2 cb2).polls k = some s.nextId ∧
    (startPoll s k j2 cb2).intervals s.nextId = some ⟨k, cb2, 0, false⟩ ∧
    (∀ st, s.intervals oldId = some st →
      (startPoll s k j2 cb2).intervals oldId = some { st with cleared := true }) ∧
    tickPoll (startPoll s k j2 cb2) oldId = startPoll s k j2 cb2 := by
  have hne : oldId ≠ s.nextId := Nat.ne_of_lt hlt
  have hE : startPoll s k j2 cb2 =
      { s with
          intervals := fun n =>
            if n = s.nextId then some ⟨k, cb2, 0, false⟩
            else (clearIv s oldId).intervals n
          polls := fun k2 => if k2 = k then some s.nextId else (clearIv s oldId).polls k2
          nextId := s.nextId + 1 } := by
    simp only [startPoll, hold]
    rfl
  refine ⟨by rw [hE]; simp, by rw [hE]; simp, ?_, ?_⟩
  · intro st hst
    rw [hE]
    simp only [clearIv, if_neg hne]
    simp [hst]
  · cases hst : s.intervals oldId with
    | none =>
        refine tickPoll_none _ oldId ?_
        rw [hE]
        simp only [clearIv, if_neg hne]
        simp [hst]
    | some st =>
        refine tickPoll_cleared _ oldId { st with cleared := true } ?_ rfl
        rw [hE]
        simp only [clearIv, if_neg hne]
        simp [hst]

/-- C2 witness: the replacement theorem applied at the concrete state
where m1 holds interval 1 and the next fresh id is 2. -/
theorem start_replaces_handle_witness :
    (startPoll sAfterTick1 "m1" "p2" 7).polls "m1" = some 2 ∧
    (startPoll sAfterTick1 "m1" "p2" 7).intervals 2 = some ⟨"m1", 7, 0, false⟩ ∧
    (∀ st, sAfterTick1.intervals 1 = some st →
      (startPoll sAfterTick1 "m1" "p2" 7).intervals 1 = some { st with cleared := true }) ∧
    tickPoll (startPoll sAfterTick1 "m1" "p2" 7) 1 = startPoll sAfterTick1 "m1" "p2" 7 :=
  start_replaces_handle sAfterTick1 "m1" "p2" 7 1 (by decide) (by decide)

/-- Allocated interval ids lie below nextId. -/
theorem lt_nextId_of_some (s : PollSt) (i : Nat) (st : IvState)
    (h : PollInv s) (hst : s.intervals i = some st) : i < s.nextId := by
  by_contra hc
  rw [h.1 i (Nat.le_of_not_lt hc)] at hst
  exact Option.noConfusion hst

/-- clearInterval preserves the state invariant. -/
theorem pollInv_clearIv (s : PollSt) (i : Nat) (h : PollInv s) :
    PollInv (clearIv s i) := by
  obtain ⟨h1, h2⟩ := h
  constructor
  · intro n hn
    simp only [clearIv]
    by_cases hni : n = i
    · subst hni
      simp [h1 n hn]
    · simp [hni, h1 n hn]
  · intro n st hst
    simp only [clearIv] at hst
    by_cases hni : n = i
    · subst hni
      rw [if_pos rfl] at hst
      cases hsi : s.intervals n with
      | none => rw [hsi] at hst; simp at hst
      | some st0 =>
          rw [hsi] at hst
          simp only [Option.map_some'] at hst
          obtain ⟨hle, _⟩ := h2 n st0 hsi
          cases hst
          exact ⟨hle, fun _ => rfl⟩
    · rw [if_neg hni] at hst
      exact h2 n st hst

/-- startSummaryPolling preserves the state invariant. -/
theorem pollInv_startPoll (s : PollSt) (k j : String) (cb : Nat)
    (h : PollInv s) : PollInv (startPoll s k j cb) := by
  cases hp : s.polls k with
  | none =>
      obtain ⟨h1, h2⟩ := h
      simp only [startPoll, hp]
      constructor
      · intro n hn
        dsimp only at hn ⊢
        have hne : n ≠ s.nextId := by omega
        simp only [if_neg hne]
        exact h1 n (by omega)
      · intro n st hst
        dsimp only at hst
        by_cases hne : n = s.nextId
        · subst hne
          rw [if_pos rfl] at hst
          cases hst
          refine ⟨by simp [MAX_POLLS], ?_⟩
          intro hc
          simp [MAX_POLLS] at hc
        · rw [if_neg hne] at hst
          exact h2 n st hst
  | some oldId =>
      obtain ⟨h1, h2⟩ := pollInv_clearIv s oldId h
      dsimp only [clearIv] at h1 h2
      simp only [startPoll, hp]
      dsimp only [clearIv]
      constructor
      · intro n hn
        dsimp only at hn ⊢
        have hne : n ≠ s.nextId := by omega
        simp only [if_neg hne]
        exact h1 n (by omega)
      · intro n st hst
        dsimp only at hst
        by_cases hne : n = s.nextId
        · subst hne
          rw [if_pos rfl] at hst
          cases hst
          refine ⟨by simp [MAX_POLLS], ?_⟩
          intro hc
          simp [MAX_POLLS] at hc
        · rw [if_neg hne] at hst
          exact h2 n st hst

/-- A timer firing preserves the state invariant: in particular the
timeout tick both reaches pollCount = MAX_POLLS and clears the timer,
so the bound survives. -/
theorem pollInv_tickPoll (s : PollSt) (i : Nat) (h : PollInv s) :
    PollInv (tickPoll s i) := by
  obtain ⟨h1, h2⟩ := h
  cases hst : s.intervals i with
  | none => simp only [tickPoll, hst]; exact ⟨h1, h2⟩
  | some st =>
      simp only [tickPoll, hst]
      by_cases hc : st.cleared = true
      · simp [hc]
        exact ⟨h1, h2⟩
      · have hi : i < s.nextId := lt_nextId_of_some s i st ⟨h1, h2⟩ hst
        have hcf : st.cleared = false := by
          cases hcv : st.cleared
          · rfl
          · exact absurd hcv hc
        have hbound : st.pollCount + 1 ≤ MAX_POLLS := by
          obtain ⟨hle, himp⟩ := h2 i st hst
          by_contra hgt
          have h120 : MAX_POLLS ≤ st.pollCount := by omega
          rw [himp h120] at hcf
          exact Bool.noConfusion hcf
        simp only [hcf, Bool.false_eq_true, if_false]
        by_cases ht : st.pollCount + 1 ≥ MAX_POLLS
        · simp only [if_pos ht]
          constructor
          · intro n hn
            dsimp only at hn ⊢
            have hne : n ≠ i := by omega
            simp only [if_neg hne]
            exact h1 n hn
          · intro n st' hst'
            dsimp only at hst'
            by_cases hni : n = i
            · subst hni
              rw [if_pos rfl] at hst'
              cases hst'
              exact ⟨hbound, fun _ => rfl⟩
            · rw [if_neg hni] at hst'
              exact h2 n st' hst'
        · simp only [if_neg ht]
          constructor
          · intro n hn
            dsimp only at hn ⊢
            have hne : n ≠ i := by omega
            simp only [if_neg hne]
            exact h1 n hn
          · intro n st' hst'
            dsimp only at hst'
            by_cases hni : n = i
            · subst hni
              rw [if_pos rfl] at hst'
              cases hst'
              refine ⟨hbound, ?_⟩
              intro hcnt
              exact absurd hcnt ht
            · rw [if_neg hni] at hst'
              exact h2 n st' hst'

/-- A successful fetch resolution preserves the state invariant. -/
theorem pollInv_resolveOkPoll (s : PollSt) (i : Nat) (r : SummaryResult)
    (h : PollInv s) : PollInv (resolveOkPoll s i r) := by
  obtain ⟨h1, h2⟩ := h
  by_cases hm : i ∈ s.inflight
  · simp only [resolveOkPoll, if_pos hm]
    cases hst : s.intervals i with
    | none => exact ⟨h1, h2⟩
    | some st =>
        have hi : i < s.nextId := lt_nextId_of_some s i st ⟨h1, h2⟩ hst
        have hb := h2 i st hst
        by_cases hterm : r.status = "completed" ∨ r.status = "error" ∨ r.status = "failed"
        · simp only [if_pos hterm]
          constructor
          · intro n hn
            dsimp only at hn ⊢
            have hne : n ≠ i := by omega
            simp only [if_neg hne]
            exact h1 n hn
          · intro n st' hst'
            dsimp only at hst'
            by_cases hni : n = i
            · subst hni
              rw [if_pos rfl] at hst'
              cases hst'
              exact ⟨hb.1, fun _ => rfl⟩
            · rw [if_neg hni] at hst'
              exact h2 n st' hst'
        · simp only [if_neg hterm]
          by_cases hidle : r.status = "idle" ∧ st.pollCount > 1
          · simp only [if_pos hidle]
            constructor
            · intro n hn
              dsimp only at hn ⊢
              have hne : n ≠ i := by omega
              simp only [if_neg hne]
              exact h1 n hn
            · intro n st' hst'
              dsimp only at hst'
              by_cases hni : n = i
              · subst hni
                rw [if_pos rfl] at hst'
                cases hst'
                exact ⟨hb.1, fun _ => rfl⟩
              · rw [if_neg hni] at hst'
                exact h2 n st' hst'
          · simp only [if_neg hidle]
            exact ⟨h1, h2⟩
  · simp only [resolveOkPoll, if_neg hm]
    exact ⟨h1, h2⟩

/-- A failed fetch resolution preserves the state invariant. -/
theorem pollInv_resolveErrPoll (s : PollSt) (i : Nat) (msg : String)
    (h : PollInv s) : PollInv (resolveErrPoll s i msg) := by
  obtain ⟨h1, h2⟩ := h
  by_cases hm : i ∈ s.inflight
  · simp only [resolveErrPoll, if_pos hm]
    cases hst : s.intervals i with
    | none => exact ⟨h1, h2⟩
    | some st =>
        have hi : i < s.nextId := lt_nextId_of_some s i st ⟨h1, h2⟩ hst
        have hb := h2 i st hst
        constructor
        · intro n hn
          dsimp only at hn ⊢
          have hne : n ≠ i := by omega
          simp only [if_neg hne]
          exact h1 n hn
        · intro n st' hst'
          dsimp only at hst'
          by_cases hni : n = i
          · subst hni
            rw [if_pos rfl] at hst'
            cases hst'
            exact ⟨hb.1, fun _ => rfl⟩
          · rw [if_neg hni] at hst'
            exact h2 n st' hst'
  · simp only [resolveErrPoll, if_neg hm]
    exact ⟨h1, h2⟩

/-- stopSummaryPolling preserves the state invariant. -/
theorem pollInv_stopPoll (s : PollSt) (k : String) (h : PollInv s) :
    PollInv (stopPoll s k) := by
  cases hp : s.polls k with
  | none => simp only [stopPoll, hp]; exact h
  | some i =>
      simp only [stopPoll, hp]
      obtain ⟨h1, h2⟩ := pollInv_clearIv s i h
      exact ⟨h1, h2⟩

/-- Every event-loop step preserves the state invariant. -/
theorem pollInv_step (s : PollSt) (e : Ev) (h : PollInv s) :
    PollInv (step s e) := by
  cases e with
  | start k j cb => exact pollInv_startPoll s k j cb h
  | tick i => exact pollInv_tickPoll s i h
  | resolveOk i r => exact pollInv_resolveOkPoll s i r h
  | resolveErr i msg => exact pollInv_resolveErrPoll s i msg h
  | stop k => exact pollInv_stopPoll s k h

/-- The initial state satisfies the invariant. -/
theorem pollInv_stInit : PollInv stInit := by
  constructor
  · intro n _
    rfl
  · intro n st hst
    exact Option.noConfusion hst

/-- The invariant holds along every run. -/
theorem pollInv_run (evs : List Ev) (s : PollSt) (h : PollInv s) :
    PollInv (run s evs) := by
  induction evs generalizing s with
  | nil => exact h
  | cons e t ih => exact ih (step s e) (pollInv_step s e h)

/-- No event-loop step ever decreases the pollCount of an allocated
interval: every step either leaves an interval closure alone, marks it
cleared (same count), or is the firing of its own timer (count + 1). -/
theorem step_count_mono (s : PollSt) (e : Ev) (i : Nat) (st : IvState)
    (hinv : PollInv s) (hst : s.intervals i = some st) :
    ∃ st', (step s e).intervals i = some st' ∧ st.pollCount ≤ st'.pollCount := by
  have hi : i < s.nextId := lt_nextId_of_some s i st hinv hst
  cases e with
  | start k j cb =>
      have hne : i ≠ s.nextId := by omega
      cases hp : s.polls k with
      | none =>
          refine ⟨st, ?_, le_refl _⟩
          simp only [step, startPoll, hp]
          simp [hne, hst]
      | some oldId =>
          by_cases ho : i = oldId
          · subst ho
            refine ⟨{ st with cleared := true }, ?_, le_refl _⟩
            simp only [step, startPoll, hp]
            dsimp only [clearIv]
            simp [hne, hst]
          · refine ⟨st, ?_, le_refl _⟩
            simp only [step, startPoll, hp]
            dsimp only [clearIv]
            simp [hne, ho, hst]
  | tick i2 =>
      cases hst2 : s.intervals i2 with
      | none =>
          refine ⟨st, ?_, le_refl _⟩
          simp only [step, tickPoll, hst2]
          exact hst
      | some st2 =>
          by_cases hc : st2.cleared = true
          · refine ⟨st, ?_, le_refl _⟩
            simp only [step, tickPoll, hst2, hc]
            simp [hst]
          · have hcf : st2.cleared = false := by
              cases hcv : st2.cleared
              · rfl
              · exact absurd hcv hc
            by_cases ht : st2.pollCount + 1 ≥ MAX_POLLS
            · by_cases hni : i = i2
              · subst hni
                rw [hst] at hst2
                cases hst2
                refine ⟨⟨st.key, st.cb, st.pollCount + 1, true⟩, ?_, Nat.le_succ _⟩
                simp only [step, tickPoll, hst, hcf]
                simp [ht]
              · refine ⟨st, ?_, le_refl _⟩
                simp only [step, tickPoll, hst2, hcf]
                simp [ht, hni, hst]
            · by_cases hni : i = i2
              · subst hni
                rw [hst] at hst2
                cases hst2
                refine ⟨⟨st.key, st.cb, st.pollCount + 1, false⟩, ?_, Nat.le_succ _⟩
                simp only [step, tickPoll, hst, hcf]
                simp [ht]
              · refine ⟨st, ?_, le_refl _⟩
                simp only [step, tickPoll, hst2, hcf]
                simp [ht, hni, hst]
  | resolveOk i2 r =>
      by_cases hm : i2 ∈ s.inflight
      · cases hst2 : s.intervals i2 with
        | none =>
            refine ⟨st, ?_, le_refl _⟩
            simp only [step, resolveOkPoll, if_pos hm, hst2]
            exact hst
        | some st2 =>
            by_cases hterm : r.status = "completed" ∨ r.status = "error" ∨ r.status = "failed"
            · by_cases hni : i = i2
              · subst hni
                rw [hst] at hst2
                cases hst2
                refine ⟨⟨st.key, st.cb, st.pollCount, true⟩, ?_, le_refl _⟩
                simp only [step, resolveOkPoll, if_pos hm, hst, if_pos hterm]
                simp
              · refine ⟨st, ?_, le_refl _⟩
                simp only [step, resolveOkPoll, if_pos hm, hst2, if_pos hterm]
                simp [hni, hst]
            · by_cases hidle : r.status = "idle" ∧ st2.pollCount > 1
              · by_cases hni : i = i2
                · subst hni
                  rw [hst] at hst2
                  cases hst2
                  refine ⟨⟨st.key, st.cb, st.pollCount, true⟩, ?_, le_refl _⟩
                  simp only [step, resolveOkPoll, if_pos hm, hst, if_neg hterm, if_pos hidle]
                  simp
                · refine ⟨st, ?_, le_refl _⟩
                  simp only [step, resolveOkPoll, if_pos hm, hst2, if_neg hterm, if_pos hidle]
                  simp [hni, hst]
              · refine ⟨st, ?_, le_refl _⟩
                simp only [step, resolveOkPoll, if_pos hm, hst2, if_neg hterm, if_neg hidle]
                exact hst
      · refine ⟨st, ?_, le_refl _⟩
        simp only [step, resolveOkPoll, if_neg hm]
        exact hst
  | resolveErr i2 msg =>
      by_cases hm : i2 ∈ s.inflight
      · cases hst2 : s.intervals i2 with
        | none =>
            refine ⟨st, ?_, le_refl _⟩
            simp only [step, resolveErrPoll, if_pos hm, hst2]
            exact hst
        | some st2 =>
            by_cases hni : i = i2
            · subst hni
              rw [hst] at hst2
              cases hst2
              refine ⟨⟨st.key, st.cb, st.pollCount, true⟩, ?_, le_refl _⟩
              simp only [step, resolveErrPoll, if_pos hm, hst]
              simp
            · refine ⟨st, ?_, le_refl _⟩
              simp only [step, resolveErrPoll, if_pos hm, hst2]
              simp [hni, hst]
      · refine ⟨st, ?_, le_refl _⟩
        simp only [step, resolveErrPoll, if_neg hm]
        exact hst
  | stop k =>
      cases hp : s.polls k with
      | none =>
          refine ⟨st, ?_, le_refl _⟩
          simp only [step, stopPoll, hp]
          exact hst
      | some i1 =>
          by_cases hni : i = i1
          · subst hni
            refine ⟨{ st with cleared := true }, ?_, le_refl _⟩
            simp only [step, stopPoll, hp]
            dsimp only [clearIv]
            simp [hst]
          · refine ⟨st, ?_, le_refl _⟩
            simp only [step, stopPoll, hp]
            dsimp only [clearIv]
            simp [hni, hst]

/-- C8: pollCount starts at 0 when start installs a fresh handle;
every firing of a live timer increments it by exactly one; no event of
the loop ever decreases it; and in every state reachable from the
initial state it is bounded by MAX_POLLS = 120 (the timeout tick is
the tick on which it reaches 120, and that tick clears the timer). -/
theorem tickCount_invariants :
    (∀ s : PollSt, ∀ k j : String, ∀ cb : Nat,
        (startPoll s k j cb).intervals s.nextId = some ⟨k, cb, 0, false⟩) ∧
    (∀ s : PollSt, ∀ i : Nat, ∀ st : IvState,
        s.intervals i = some st → st.cleared = false →
        ∃ b : Bool, (tickPoll s i).intervals i = some ⟨st.key, st.cb, st.pollCount + 1, b⟩) ∧
    (∀ s : PollSt, ∀ e : Ev, ∀ i : Nat, ∀ st : IvState,
        PollInv s → s.intervals i = some st →
        ∃ st', (step s e).intervals i = some st' ∧ st.pollCount ≤ st'.pollCount) ∧
    (∀ evs : List Ev, ∀ i : Nat, ∀ st : IvState,
        (run stInit evs).intervals i = some st → st.pollCount ≤ MAX_POLLS) := by
  refine ⟨?_, ?_, step_count_mono, ?_⟩
  · intro s k j cb
    cases hp : s.polls k with
    | none =>
        simp only [startPoll, hp]
        simp
    | some oldId =>
        simp only [startPoll, hp]
        dsimp only [clearIv]
        simp
  · intro s i st hst hcf
    by_cases ht : st.pollCount + 1 ≥ MAX_POLLS
    · refine ⟨true, ?_⟩
      simp only [tickPoll, hst, hcf]
      simp [ht]
    · refine ⟨false, ?_⟩
      simp only [tickPoll, hst, hcf]
      simp [ht]
  · intro evs i st h
    exact ((pollInv_run evs stInit pollInv_stInit).2 i st h).1

set_option maxRecDepth 40000 in
/-- C8 witness: the four parts instantiated concretely — a fresh start
from the initial state installs pollCount 0 at interval id 1; the
second firing for m1 moves pollCount from 1 to 2; a stop step does not
decrease the count of interval 1; and at the end of the full timeout
run pollCount is within the bound. -/
theorem tickCount_invariants_witness :
    (startPoll stInit "m1" "p1" 0).intervals 1 = some ⟨"m1", 0, 0, false⟩ ∧
    (∃ b : Bool, (tickPoll sAfterTick1 1).intervals 1 = some ⟨"m1", 0, 2, b⟩) ∧
    (∃ st', (step sAfterTick1 (Ev.stop "m1")).intervals 1 = some st' ∧
      1 ≤ st'.pollCount) ∧
    (120 : Nat) ≤ MAX_POLLS :=
  ⟨tickCount_invariants.1 stInit "m1" "p1" 0,
   tickCount_invariants.2.1 sAfterTick1 1 ⟨"m1", 0, 1, false⟩ (by decide) rfl,
   tickCount_invariants.2.2.1 sAfterTick1 (Ev.stop "m1") 1 ⟨"m1", 0, 1, false⟩
     (pollInv_run [Ev.start "m1" "p1" 0, Ev.tick 1] stInit pollInv_stInit) (by decide),
   tickCount_invariants.2.2.2 evsTimeout 1 ⟨"m1", 0, 120, true⟩ (by decide)⟩

end Polling
